import Mathlib

/-!
Verification of the event-notification subsystem of a small Node/Express
backend (src/index.js): user registration publishes a `userRegistered`
event to a RabbitMQ fanout exchange, and a subscriber consumes the events
and appends them to `events.log`.

The JavaScript code is shallowly embedded:

* events are flat records of string / integer-number fields
  (`JVal`, `Event`), matching the shape actually published by the
  `/register` handler;
* `JSON.stringify` on such a record is modelled by `jsonStringify`
  (escaping exactly as the ECMAScript `QuoteJSONString` algorithm does
  for these values), and `JSON.parse` by `jsParse`, a fuel-based
  recursive-descent parser over the full JSON grammar, numerals
  included in full (fraction, exponent, leading-zero rejection); the
  value of a numeral is kept as its exact decimal reading (see
  `JsonNumber`);
* the broker interactions of `publishEvent` and `subscribeToEvents` are
  modelled as traces of `BrokerStep` actions;
* `createChannel`, the `/register` insert callback, the consume callback
  and `logEventToFile` are modelled as explicit state-passing functions,
  with JavaScript exceptions as `Except` errors.
-/

/-- A primitive JSON value appearing as a field of an event: the events
this program publishes are flat objects whose fields are strings or
(integer) numbers. -/
inductive JVal where
  | str : String → JVal
  | num : Int → JVal
deriving DecidableEq

/-- An event, as handed to `JSON.stringify` by `publishEvent`: an ordered
flat record of named primitive fields. -/
abbrev Event : Type := List (String × JVal)

/-- Decimal digit character, `digitChar d` for `d < 10`. -/
def digitChar (d : Nat) : Char := Char.ofNat (48 + d)

/-- Lowercase hexadecimal digit character, for `d < 16`. -/
def hexDigit (d : Nat) : Char :=
  if d < 10 then Char.ofNat (48 + d) else Char.ofNat (87 + d)

/-- Decimal digit list of a natural number, most significant first
(the digits `JSON.stringify` prints for an integer-valued number). -/
def natDigits (n : Nat) : List Char :=
  if _h : n < 10 then [digitChar n] else natDigits (n / 10) ++ [digitChar (n % 10)]
termination_by n
decreasing_by exact Nat.div_lt_self (by omega) (by omega)

/-- Character list `JSON.stringify` prints for an integer-valued number. -/
def encodeInt (i : Int) : List Char :=
  if i < 0 then '-' :: natDigits i.natAbs else natDigits i.natAbs

/-- JSON escape of one character, exactly as ECMAScript `QuoteJSONString`
produces it: `\"` and `\\`, the shorthands `\b \t \n \f \r`, `\u00xx`
for the remaining control characters, and every other character
unchanged. -/
def escapeChar (c : Char) : List Char :=
  if c = '"' then ['\\', '"']
  else if c = '\\' then ['\\', '\\']
  else if c = Char.ofNat 8 then ['\\', 'b']
  else if c = Char.ofNat 9 then ['\\', 't']
  else if c = Char.ofNat 10 then ['\\', 'n']
  else if c = Char.ofNat 12 then ['\\', 'f']
  else if c = Char.ofNat 13 then ['\\', 'r']
  else if c.toNat < 32 then ['\\', 'u', '0', '0', hexDigit (c.toNat / 16), hexDigit (c.toNat % 16)]
  else [c]

/-- JSON escape of a character list. -/
def escapeChars (cs : List Char) : List Char := cs.flatMap escapeChar

/-- Quoted JSON string literal for `s`. -/
def encodeString (s : String) : List Char :=
  '"' :: (escapeChars s.data ++ ['"'])

/-- Character list `JSON.stringify` prints for one primitive value. -/
def encodeJVal : JVal → List Char
  | .str s => encodeString s
  | .num i => encodeInt i

/-- Character list `JSON.stringify` prints for one `key:value` member. -/
def encodeField (f : String × JVal) : List Char :=
  encodeString f.1 ++ ':' :: encodeJVal f.2

/-- Comma-separated members of the serialized object. -/
def encodeFields : Event → List Char
  | [] => []
  | [f] => encodeField f
  | f :: fs => encodeField f ++ ',' :: encodeFields fs

/-- Character list `JSON.stringify` prints for a whole event. -/
def encode (e : Event) : List Char :=
  '{' :: (encodeFields e ++ ['}'])

/-- Model of `JSON.stringify(event)` (src/index.js line 44 and line 230). -/
def jsonStringify (e : Event) : String := String.mk (encode e)

/-- The exact decimal value of a JSON numeral, `mantissa × 10 ^ exponent`.
`JSON.parse` accepts exactly the JSON numeral grammar and this model
keeps the accepted value exact (the engine then rounds it to the nearest
double; that rounding, a property of binary floating point, is outside
the model — acceptance and rejection of the text are modelled exactly).
An integer numeral `n` denotes `⟨n, 0⟩`. -/
structure JsonNumber where
  mantissa : Int
  exponent : Int
deriving DecidableEq

/-- A JSON value, as `JSON.parse` can return it. -/
inductive JsValue where
  | null : JsValue
  | bool : Bool → JsValue
  | num : JsonNumber → JsValue
  | str : String → JsValue
  | arr : List JsValue → JsValue
  | obj : List (String × JsValue) → JsValue

/-- JSON whitespace. -/
def isWs (c : Char) : Bool :=
  c = ' ' || c = Char.ofNat 9 || c = Char.ofNat 10 || c = Char.ofNat 13

/-- Drop leading JSON whitespace. -/
def skipWs : List Char → List Char
  | c :: cs => if isWs c then skipWs cs else c :: cs
  | [] => []

/-- Decimal digit test. -/
def isDigit (c : Char) : Bool := 48 ≤ c.toNat && c.toNat ≤ 57

/-- Value of a decimal digit character. -/
def digitVal (c : Char) : Nat := c.toNat - 48

/-- Split off the longest leading run of decimal digits. -/
def digitRun : List Char → List Char × List Char
  | c :: cs =>
    if isDigit c then
      let p := digitRun cs
      (c :: p.1, p.2)
    else ([], c :: cs)
  | [] => ([], [])

/-- Numeric value of a digit run, most significant digit first. -/
def digitsVal (ds : List Char) : Nat :=
  ds.foldl (fun a c => 10 * a + digitVal c) 0

/-- The integer part of a JSON numeral: `0`, or a nonzero digit followed
by any digits — after a leading `0` no further digit belongs to the
numeral (so `05` is a `0` followed by stray input, exactly as in the
JSON grammar `JSON.parse` implements). Returns the digits consumed. -/
def parseIntPart (cs : List Char) : Option (List Char × List Char) :=
  match cs with
  | [] => none
  | c :: rest =>
    if c = '0' then some (['0'], rest)
    else if isDigit c then
      let p := digitRun rest
      some (c :: p.1, p.2)
    else none

/-- The optional fraction part of a JSON numeral: nothing, or `.` followed
by at least one digit. Returns the fraction digits. -/
def parseFracPart (cs : List Char) : Option (List Char × List Char) :=
  match cs with
  | [] => some ([], [])
  | c :: rest =>
    if c = '.' then
      match rest with
      | [] => none
      | d :: rest2 =>
        if isDigit d then
          let p := digitRun rest2
          some (d :: p.1, p.2)
        else none
    else some ([], c :: rest)

/-- The digits of an exponent part, after `e`/`E` and an optional sign:
at least one digit. -/
def parseExpDigits (sign : Int) (cs : List Char) : Option (Int × List Char) :=
  match cs with
  | [] => none
  | d :: rest =>
    if isDigit d then
      let p := digitRun rest
      some (sign * (digitsVal (d :: p.1) : Int), p.2)
    else none

/-- The optional exponent part of a JSON numeral: nothing, or `e`/`E`, an
optional sign, and at least one digit. -/
def parseExpPart (cs : List Char) : Option (Int × List Char) :=
  match cs with
  | [] => some (0, [])
  | c :: rest =>
    if c = 'e' ∨ c = 'E' then
      match rest with
      | [] => none
      | d :: rest2 =>
        if d = '+' then parseExpDigits 1 rest2
        else if d = '-' then parseExpDigits (-1) rest2
        else parseExpDigits 1 (d :: rest2)
    else some (0, c :: rest)

/-- A JSON numeral after the optional minus sign: integer part, optional
fraction, optional exponent; the value is the exact decimal
`± digits × 10 ^ (exponent - #fraction digits)`. -/
def parseUnsigned (neg : Bool) (cs : List Char) : Option (JsonNumber × List Char) :=
  match parseIntPart cs with
  | none => none
  | some (ids, r1) =>
    match parseFracPart r1 with
    | none => none
    | some (fds, r2) =>
      match parseExpPart r2 with
      | none => none
      | some (ex, r3) =>
        let mag : Nat := digitsVal (ids ++ fds)
        some ({ mantissa := if neg then -(mag : Int) else (mag : Int)
                exponent := ex - fds.length }, r3)

/-- Parse a JSON numeral: the full grammar `JSON.parse` accepts — an
optional minus sign, an integer part without leading zeros, an optional
fraction, an optional exponent. -/
def parseNumber (cs : List Char) : Option (JsonNumber × List Char) :=
  match cs with
  | [] => none
  | c :: rest =>
    if c = '-' then parseUnsigned true rest else parseUnsigned false (c :: rest)

/-- Value of a hexadecimal digit character. -/
def hexVal (c : Char) : Option Nat :=
  if 48 ≤ c.toNat && c.toNat ≤ 57 then some (c.toNat - 48)
  else if 97 ≤ c.toNat && c.toNat ≤ 102 then some (c.toNat - 87)
  else if 65 ≤ c.toNat && c.toNat ≤ 70 then some (c.toNat - 55)
  else none

/-- Prepend a character to the first component of a parsed pair. -/
def consFst (c : Char) (p : List Char × List Char) : List Char × List Char :=
  (c :: p.1, p.2)

/-- Parse the body of a JSON string literal, after the opening quote:
raw characters up to the closing quote, with the standard escapes. -/
def parseStringBody : List Char → Option (List Char × List Char)
  | [] => none
  | c :: rest =>
    if c = '"' then some ([], rest)
    else if c = '\\' then
      match rest with
      | [] => none
      | e :: rest2 =>
        if e = '"' then consFst '"' <$> parseStringBody rest2
        else if e = '\\' then consFst '\\' <$> parseStringBody rest2
        else if e = '/' then consFst '/' <$> parseStringBody rest2
        else if e = 'b' then consFst (Char.ofNat 8) <$> parseStringBody rest2
        else if e = 't' then consFst (Char.ofNat 9) <$> parseStringBody rest2
        else if e = 'n' then consFst (Char.ofNat 10) <$> parseStringBody rest2
        else if e = 'f' then consFst (Char.ofNat 12) <$> parseStringBody rest2
        else if e = 'r' then consFst (Char.ofNat 13) <$> parseStringBody rest2
        else if e = 'u' then
          match rest2 with
          | a :: b :: c2 :: d :: rest3 =>
            match hexVal a, hexVal b, hexVal c2, hexVal d with
            | some ha, some hb, some hc, some hd =>
              consFst (Char.ofNat (((ha * 16 + hb) * 16 + hc) * 16 + hd)) <$>
                parseStringBody rest3
            | _, _, _, _ => none
          | _ => none
        else none
    else if c.toNat < 32 then none
    else consFst c <$> parseStringBody rest

mutual

/-- Parse one JSON value (fuel-based recursive descent). -/
def parseJsValue : Nat → List Char → Option (JsValue × List Char)
  | 0, _ => none
  | f + 1, cs =>
    match skipWs cs with
    | [] => none
    | c :: rest =>
      if c = '"' then
        (fun p => (JsValue.str (String.mk p.1), p.2)) <$> parseStringBody rest
      else if c = '{' then
        match skipWs rest with
        | [] => none
        | d :: r2 =>
          if d = '}' then some (JsValue.obj [], r2)
          else (fun p => (JsValue.obj p.1, p.2)) <$> parseMembers f (d :: r2)
      else if c = '[' then
        match skipWs rest with
        | [] => none
        | d :: r2 =>
          if d = ']' then some (JsValue.arr [], r2)
          else (fun p => (JsValue.arr p.1, p.2)) <$> parseElems f (d :: r2)
      else if c = 't' then
        match rest with
        | 'r' :: 'u' :: 'e' :: r2 => some (JsValue.bool true, r2)
        | _ => none
      else if c = 'f' then
        match rest with
        | 'a' :: 'l' :: 's' :: 'e' :: r2 => some (JsValue.bool false, r2)
        | _ => none
      else if c = 'n' then
        match rest with
        | 'u' :: 'l' :: 'l' :: r2 => some (JsValue.null, r2)
        | _ => none
      else (fun p => (JsValue.num p.1, p.2)) <$> parseNumber (c :: rest)

/-- Parse a nonempty comma-separated member list of a JSON object,
including the closing brace. -/
def parseMembers : Nat → List Char → Option (List (String × JsValue) × List Char)
  | 0, _ => none
  | f + 1, cs =>
    match skipWs cs with
    | [] => none
    | c :: rest =>
      if c = '"' then
        match parseStringBody rest with
        | none => none
        | some (k, r1) =>
          match skipWs r1 with
          | [] => none
          | d :: r2 =>
            if d = ':' then
              match parseJsValue f r2 with
              | none => none
              | some (v, r3) =>
                match skipWs r3 with
                | [] => none
                | s :: r4 =>
                  if s = ',' then
                    (fun p => ((String.mk k, v) :: p.1, p.2)) <$> parseMembers f r4
                  else if s = '}' then some ([(String.mk k, v)], r4)
                  else none
            else none
      else none

/-- Parse a nonempty comma-separated element list of a JSON array,
including the closing bracket. -/
def parseElems : Nat → List Char → Option (List JsValue × List Char)
  | 0, _ => none
  | f + 1, cs =>
    match parseJsValue f cs with
    | none => none
    | some (v, r) =>
      match skipWs r with
      | [] => none
      | s :: r2 =>
        if s = ',' then (fun p => (v :: p.1, p.2)) <$> parseElems f r2
        else if s = ']' then some ([v], r2)
        else none

end

/-- Model of `JSON.parse(text)` (src/index.js line 217): parse one JSON
value, allowing only trailing whitespace; on anything else the
JavaScript call throws a `SyntaxError`, which this model renders as
`none`. -/
def jsParse (s : String) : Option JsValue :=
  match parseJsValue (2 * s.data.length + 2) s.data with
  | some (v, r) => if skipWs r = [] then some v else none
  | none => none

/-- Embed an event field value into the JSON value domain: an integer
field denotes the numeral with exponent zero. -/
def jvalToJs : JVal → JsValue
  | .str s => .str s
  | .num i => .num ⟨i, 0⟩

/-- The JSON value an event denotes. -/
def eventToJs (e : Event) : JsValue :=
  .obj (e.map fun p => (p.1, jvalToJs p.2))

/-- Read an event field value back off a JSON value: strings, and
integer-valued numerals (exponent zero). -/
def jsToJVal : JsValue → Option JVal
  | .str s => some (JVal.str s)
  | .num n => if n.exponent = 0 then some (JVal.num n.mantissa) else none
  | _ => none

/-- Read an event back off a JSON value: it must be a flat object of
primitive fields. -/
def eventOfJs : JsValue → Option Event
  | .obj fs => fs.mapM fun p => (jsToJVal p.2).map fun v => (p.1, v)
  | _ => none

/-- Decode a byte string as an encoded event: `JSON.parse` followed by the
check that the result is a flat record of string/number fields. A string
is a valid encoded Event exactly when this returns `some`. -/
def decodeEvent (s : String) : Option Event :=
  (jsParse s).bind eventOfJs

/-- The fixed exchange name (src/index.js line 12). -/
def exchange : String := "events"

/-- One broker-facing action taken by the publisher or the subscriber.
The fields record exactly the arguments the source passes to the
corresponding `amqplib` channel method. -/
inductive BrokerStep where
  | acquireChannel : BrokerStep
  | assertExchange : String → String → Bool → BrokerStep
  | assertQueue : String → Bool → BrokerStep
  | bindQueue : String → String → String → BrokerStep
  | consume : String → Bool → BrokerStep
  | publish : String → String → String → BrokerStep
deriving DecidableEq

/-- Broker actions of `publishEvent(event)` (src/index.js lines 39-48),
given a channel: assert the exchange (name `exchange`, type `"fanout"`,
`durable: false`), then publish the JSON serialization of the event to
that exchange with routing key `""`. -/
def publishEvent (event : Event) : List BrokerStep :=
  [ .assertExchange exchange "fanout" false,
    .publish exchange "" (jsonStringify event) ]

/-- A JavaScript exception, as far as this subsystem can raise one. -/
inductive JsError where
  | typeError : JsError
  | syntaxError : JsError
deriving DecidableEq

/-- Calling `publishEvent` against the module-level `channel` binding
(src/index.js line 26): when the channel was never established the
binding is `undefined` and `channel.assertExchange(...)` throws a
`TypeError`; otherwise the two broker calls run. -/
def publishEventRun (channel : Option Nat) (event : Event) :
    Except JsError (List BrokerStep) :=
  match channel with
  | none => .error .typeError
  | some _ => .ok (publishEvent event)

/-- The module-level mutable state read and written by `createChannel`:
the `channel` binding, plus a supply of fresh channel identities used to
tell a newly created channel apart from an old one. -/
structure ConnState where
  channel : Option Nat
  nextChannelId : Nat
deriving DecidableEq

/-- Outcome of one `amqp.connect(RABBITMQ_URL)` attempt; an input of the
model, since it depends on the environment. -/
inductive ConnectResult where
  | success : ConnectResult
  | failure : String → ConnectResult
deriving DecidableEq

/-- Observable outcome of one `createChannel()` call. -/
structure CreateChannelOut where
  state : ConnState
  connectAttempts : Nat
  consoleErrors : List String
  uncaught : Option JsError
deriving DecidableEq

/-- Model of `createChannel` (src/index.js lines 28-36): unconditionally
`await amqp.connect(...)` once, then derive a fresh channel from the new
connection and overwrite the `channel` binding; on a connect failure the
`catch` logs `console.error("Error connecting to RabbitMQ: ", error)`
and the state is left as it was. Both branches return normally, so
`uncaught` is `none`, and exactly one connect is attempted. -/
def createChannel (st : ConnState) (r : ConnectResult) : CreateChannelOut :=
  match r with
  | .success =>
    { state := { channel := some st.nextChannelId, nextChannelId := st.nextChannelId + 1 },
      connectAttempts := 1
      consoleErrors := []
      uncaught := none }
  | .failure msg =>
    { state := st
      connectAttempts := 1
      consoleErrors := ["Error connecting to RabbitMQ: " ++ msg]
      uncaught := none }

/-- An HTTP response as the handlers build one: `res.json(x)` is status
200 with body `JSON.stringify(x)`, `res.status(s).json(x)` likewise with
status `s`. -/
structure HttpResponse where
  status : Nat
  body : String
deriving DecidableEq

/-- Outcome of the `INSERT INTO user ...` query, an input of the model. -/
inductive QueryOutcome where
  | err : String → QueryOutcome
  | ok : Int → QueryOutcome
deriving DecidableEq

/-- What one run of the `/register` query callback produces when it
returns normally. -/
structure RegisterOut where
  response : HttpResponse
  brokerSteps : List BrokerStep
  consoleErrors : List String
deriving DecidableEq

/-- The event object the `/register` handler builds on a successful
insert (src/index.js lines 74-79). -/
def registerEvent (insertId : Int) (username email : String) : Event :=
  [ ("eventType", .str "userRegistered"),
    ("userId", .num insertId),
    ("username", .str username),
    ("email", .str email) ]

/-- Model of the `db.query` callback of the `/register` handler
(src/index.js lines 68-85). On a query error it logs and answers 500; on
success it calls `publishEvent(event)` and only afterwards reaches
`res.json(...)`, so a `TypeError` thrown by `publishEvent` escapes the
callback before any response is sent. -/
def registerQueryCallback (channel : Option Nat) (outcome : QueryOutcome)
    (username email : String) : Except JsError RegisterOut :=
  match outcome with
  | .err msg =>
    .ok { response :=
            { status := 500
              body := jsonStringify [("error", .str "Internal Server Error")] }
          brokerSteps := []
          consoleErrors := ["Error registering user: " ++ msg] }
  | .ok insertId =>
    match publishEventRun channel (registerEvent insertId username email) with
    | .error eJs => .error eJs
    | .ok steps =>
      .ok { response :=
              { status := 200
                body := jsonStringify [("message", .str "User registered successfully")] }
            brokerSteps := steps
            consoleErrors := [] }

/-- Broker actions of `subscribeToEvents` (src/index.js lines 199-224) on
its successful path, where `q` is the broker-assigned name of the
anonymous queue returned by `assertQueue`. -/
def subscribeToEvents (q : String) : List BrokerStep :=
  [ .acquireChannel,
    .assertExchange exchange "fanout" false,
    .assertQueue "" true,
    .bindQueue q exchange "",
    .consume q true ]

/-- One delivery as the consume callback receives it; `content = none`
models an absent or otherwise falsy `msg.content`. -/
structure Delivery where
  content : Option String
deriving DecidableEq

/-- Model of the consume callback (src/index.js lines 215-221): with no
content it does nothing and returns; otherwise it runs `JSON.parse` on
the content — an invalid body makes that throw a `SyntaxError`, which
nothing in the loop catches — and hands the parsed value to
`logEventToFile`. The result records the value logged, if any. -/
def consumeCallback (msg : Delivery) : Except JsError (Option JsValue) :=
  match msg.content with
  | none => .ok none
  | some body =>
    match jsParse body with
    | none => .error .syntaxError
    | some v => .ok (some v)

/-- The fixed relative path of the log file (src/index.js line 228). -/
def logFilePath : String := "events.log"

/-- Result of the `fs.appendFile` call, an input of the model. -/
inductive WriteResult where
  | ok : WriteResult
  | fail : String → WriteResult
deriving DecidableEq

/-- Observable outcome of one `logEventToFile` call: the log file's new
contents, the console lines written by the `fs.appendFile` callback, and
whatever failure indication the caller of `logEventToFile` receives. -/
structure LogFileOut where
  file : String
  console : List String
  callerError : Option String
deriving DecidableEq

/-- The one record `logEventToFile` builds (src/index.js lines 230-232):
the ISO timestamp, the literal separator, the JSON serialization of the
event, and a terminating newline. -/
def logEntry (now : String) (event : Event) : String :=
  now ++ " - Event: " ++ jsonStringify event ++ "\n"

/-- Model of `logEventToFile` (src/index.js lines 227-241): append the
one record to the file. The `fs.appendFile` callback only writes a line
to the console; `logEventToFile` itself returns `undefined` on both
paths, so the caller receives no failure indication (`callerError` is
always `none`). -/
def logEventToFile (now : String) (file : String) (event : Event)
    (w : WriteResult) : LogFileOut :=
  match w with
  | .ok =>
    { file := file ++ logEntry now event
      console := ["Event logged successfully"]
      callerError := none }
  | .fail msg =>
    { file := file
      console := ["Error writing to log file: " ++ msg]
      callerError := none }

/-- The log file after `K` successful deliveries: each delivery appends
its one record via `logEventToFile`. -/
def appendEvents (file : String) (entries : List (String × Event)) : String :=
  entries.foldl (fun f p => (logEventToFile p.1 f p.2 .ok).file) file

/-- A character list that does not begin with a decimal digit (e.g. the
remainder after a serialized number: `,`, `}`, or end of input). -/
def headNotDigit (cs : List Char) : Bool :=
  match cs with
  | [] => true
  | c :: _ => !(isDigit c)

/-- A character list that cannot extend a JSON numeral: empty, or headed
by a character that is no digit and none of `.`, `e`, `E` — every JSON
delimiter (`,`, `}`, `]`, end of input) qualifies. -/
def numBoundary (cs : List Char) : Bool :=
  match cs with
  | [] => true
  | c :: _ => !(isDigit c || c = '.' || c = 'e' || c = 'E')

/-- Characters below the surrogate range are valid code points. -/
theorem toNat_charOfNat (n : Nat) (h : n < 55296) : (Char.ofNat n).toNat = n := by
  unfold Char.ofNat
  split
  · rfl
  · rename_i hv
    exact absurd (Or.inl h) hv

/-- Characters below the surrogate range round-trip through their code. -/
theorem charOfNat_toNat (c : Char) (h : c.toNat < 55296) : Char.ofNat c.toNat = c := by
  apply Char.ext
  apply UInt32.ext
  exact toNat_charOfNat c.toNat h

theorem digitChar_isDigit (d : Nat) (h : d < 10) : isDigit (digitChar d) = true := by
  interval_cases d <;> decide

theorem digitVal_digitChar (d : Nat) (h : d < 10) : digitVal (digitChar d) = d := by
  interval_cases d <;> decide

theorem natDigits_eq (n : Nat) :
    natDigits n
      = if n < 10 then [digitChar n] else natDigits (n / 10) ++ [digitChar (n % 10)] := by
  rw [natDigits]
  simp

theorem natDigits_ne_nil (n : Nat) : natDigits n ≠ [] := by
  rw [natDigits_eq]
  split <;> simp

theorem natDigits_all_digits (n : Nat) : ∀ c ∈ natDigits n, isDigit c = true := by
  induction n using Nat.strong_induction_on with
  | _ n ih =>
    intro c hc
    rw [natDigits_eq] at hc
    by_cases h : n < 10
    · rw [if_pos h] at hc
      simp at hc
      subst hc
      exact digitChar_isDigit n h
    · rw [if_neg h] at hc
      rcases List.mem_append.mp hc with h1 | h2
      · exact ih (n / 10) (Nat.div_lt_self (by omega) (by omega)) c h1
      · simp at h2
        subst h2
        exact digitChar_isDigit (n % 10) (Nat.mod_lt n (by omega))

/-- Folding the printed digits back into a number. -/
theorem foldl_natDigits (n : Nat) : ∀ acc : Nat,
    (natDigits n).foldl (fun a c => 10 * a + digitVal c) acc
      = acc * 10 ^ (natDigits n).length + n := by
  induction n using Nat.strong_induction_on with
  | _ n ih =>
    intro acc
    rw [natDigits_eq]
    by_cases h : n < 10
    · rw [if_pos h]
      simp [digitVal_digitChar n h]
      omega
    · rw [if_neg h]
      rw [List.foldl_append]
      rw [ih (n / 10) (Nat.div_lt_self (by omega) (by omega)) acc]
      simp [digitVal_digitChar (n % 10) (Nat.mod_lt n (by omega))]
      rw [Nat.pow_succ]
      have := Nat.div_add_mod n 10
      ring_nf
      omega

theorem numBoundary_cons_of (c : Char) (t : List Char) (h1 : isDigit c = false)
    (h2 : c ≠ '.') (h3 : c ≠ 'e') (h4 : c ≠ 'E') : numBoundary (c :: t) = true := by
  simp [numBoundary, h1, h2, h3, h4]

theorem numBoundary_cons {c : Char} {t : List Char} (h : numBoundary (c :: t) = true) :
    isDigit c = false ∧ c ≠ '.' ∧ c ≠ 'e' ∧ c ≠ 'E' := by
  simp [numBoundary] at h
  exact ⟨h.1.1.1, h.1.1.2, h.1.2, h.2⟩

theorem numBoundary_headNotDigit {cs : List Char} (h : numBoundary cs = true) :
    headNotDigit cs = true := by
  cases cs with
  | nil => rfl
  | cons c t =>
    simp [headNotDigit, (numBoundary_cons h).1]

theorem digitRun_split (ds : List Char) :
    ∀ rest : List Char, (∀ c ∈ ds, isDigit c = true) →
      headNotDigit rest = true →
      digitRun (ds ++ rest) = (ds, rest) := by
  induction ds with
  | nil =>
    intro rest _ hr
    cases rest with
    | nil => rfl
    | cons c t =>
      simp [headNotDigit] at hr
      simp [digitRun, hr]
  | cons c t ih =>
    intro rest hds hr
    have hc : isDigit c = true := hds c (by simp)
    simp only [List.cons_append, digitRun, hc, if_pos]
    simp [ih rest (fun x hx => hds x (by simp [hx])) hr]

theorem digitsVal_natDigits (n : Nat) : digitsVal (natDigits n) = n := by
  have := foldl_natDigits n 0
  simpa [digitsVal] using this

theorem natDigits_cons (n : Nat) :
    ∃ d ds, natDigits n = d :: ds ∧ isDigit d = true ∧ (∀ c ∈ ds, isDigit c = true) := by
  match h : natDigits n with
  | [] => exact absurd h (natDigits_ne_nil n)
  | d :: ds =>
    refine ⟨d, ds, rfl, ?_, ?_⟩
    · exact natDigits_all_digits n d (h ▸ List.mem_cons_self d ds)
    · intro c hc
      exact natDigits_all_digits n c (h ▸ List.mem_cons_of_mem d hc)

/-- The printed digits of a positive number start with a nonzero digit:
`JSON.stringify` never emits a leading zero, matching the grammar
`JSON.parse` accepts. -/
theorem natDigits_head_ne_zero (n : Nat) (hn : 1 ≤ n) :
    ∃ d ds, natDigits n = d :: ds ∧ isDigit d = true ∧ d ≠ '0'
      ∧ (∀ c ∈ ds, isDigit c = true) := by
  induction n using Nat.strong_induction_on with
  | _ n ih =>
    rw [natDigits_eq]
    by_cases h : n < 10
    · rw [if_pos h]
      refine ⟨digitChar n, [], rfl, digitChar_isDigit n h, ?_, by simp⟩
      intro he
      have h2 := digitVal_digitChar n h
      rw [he] at h2
      have h3 : digitVal '0' = 0 := by decide
      omega
    · rw [if_neg h]
      obtain ⟨d, ds, hnd, hdig, hne, hall⟩ :=
        ih (n / 10) (Nat.div_lt_self (by omega) (by omega)) (by omega)
      refine ⟨d, ds ++ [digitChar (n % 10)], by rw [hnd]; rfl, hdig, hne, ?_⟩
      intro c hc
      rcases List.mem_append.mp hc with h1 | h2
      · exact hall c h1
      · simp at h2
        subst h2
        exact digitChar_isDigit _ (Nat.mod_lt n (by omega))

theorem isDigit_ne_minus {c : Char} (h : isDigit c = true) : c ≠ '-' := by
  intro he
  subst he
  exact absurd h (by decide)

/-- `parseIntPart` consumes exactly the printed digits of a number: a
single `'0'`, or a nonzero leading digit and the following digit run. -/
theorem parseIntPart_natDigits (n : Nat) (rest : List Char)
    (hr : headNotDigit rest = true) :
    parseIntPart (natDigits n ++ rest) = some (natDigits n, rest) := by
  by_cases hn : n = 0
  · subst hn
    have h0 : natDigits 0 = ['0'] := by
      rw [natDigits_eq, if_pos (by omega)]
      decide
    rw [h0]
    simp [parseIntPart]
  · obtain ⟨d, ds, hnd, hdig, hne, hall⟩ := natDigits_head_ne_zero n (by omega)
    rw [hnd]
    simp only [List.cons_append, parseIntPart]
    rw [if_neg hne, if_pos hdig]
    simp [digitRun_split ds rest hall hr]

theorem parseFracPart_boundary (cs : List Char) (h : numBoundary cs = true) :
    parseFracPart cs = some ([], cs) := by
  cases cs with
  | nil => rfl
  | cons c t =>
    simp [parseFracPart, (numBoundary_cons h).2.1]

theorem parseExpPart_boundary (cs : List Char) (h : numBoundary cs = true) :
    parseExpPart cs = some (0, cs) := by
  cases cs with
  | nil => rfl
  | cons c t =>
    obtain ⟨_, _, h3, h4⟩ := numBoundary_cons h
    simp [parseExpPart, h3, h4]

/-- The number codec round-trip: `parseNumber` inverts `encodeInt` (the
value is the integer with exponent zero) whenever the remainder cannot
extend the numeral. -/
theorem parseNumber_encodeInt (i : Int) (rest : List Char)
    (hr : numBoundary rest = true) :
    parseNumber (encodeInt i ++ rest) = some (⟨i, 0⟩, rest) := by
  have hnd := numBoundary_headNotDigit hr
  have hip := parseIntPart_natDigits i.natAbs rest hnd
  have hfp := parseFracPart_boundary rest hr
  have hep := parseExpPart_boundary rest hr
  have hunT : parseUnsigned true (natDigits i.natAbs ++ rest)
      = some (⟨-(i.natAbs : Int), 0⟩, rest) := by
    simp only [parseUnsigned, hip, hfp, hep]
    simp [digitsVal_natDigits]
  have hunF : parseUnsigned false (natDigits i.natAbs ++ rest)
      = some (⟨(i.natAbs : Int), 0⟩, rest) := by
    simp only [parseUnsigned, hip, hfp, hep]
    simp [digitsVal_natDigits]
  by_cases hneg : i < 0
  · have harg : encodeInt i ++ rest = '-' :: (natDigits i.natAbs ++ rest) := by
      simp [encodeInt, if_pos hneg]
    rw [harg]
    simp only [parseNumber, if_pos rfl]
    rw [hunT]
    have hm : -(i.natAbs : Int) = i := by omega
    rw [hm]
    simp
  · obtain ⟨d, ds, hcons, hdig, _⟩ := natDigits_cons i.natAbs
    have harg : encodeInt i ++ rest = d :: (ds ++ rest) := by
      simp [encodeInt, if_neg hneg, hcons]
    rw [harg]
    have hdm : d ≠ '-' := isDigit_ne_minus hdig
    simp only [parseNumber, if_neg hdm]
    have hback : d :: (ds ++ rest) = natDigits i.natAbs ++ rest := by
      rw [hcons]
      rfl
    rw [hback, hunF]
    have hm : (i.natAbs : Int) = i := by omega
    rw [hm]

theorem hexVal_hexDigit (d : Nat) (h : d < 16) : hexVal (hexDigit d) = some d := by
  interval_cases d <;> decide

theorem parseStringBody_quote (rest : List Char) :
    parseStringBody ('"' :: rest) = some ([], rest) := by
  rw [parseStringBody.eq_def]
  simp

theorem parseStringBody_raw (c : Char) (rest : List Char)
    (h1 : c ≠ '"') (h2 : c ≠ '\\') (h3 : ¬ c.toNat < 32) :
    parseStringBody (c :: rest) = consFst c <$> parseStringBody rest := by
  rw [parseStringBody.eq_def]
  simp [h1, h2, h3]

/-- The string-body codec round-trip: parsing an escaped character run
recovers it, stopping at the closing quote. -/
theorem parseStringBody_escape : ∀ (s rest : List Char),
    parseStringBody (escapeChars s ++ '"' :: rest) = some (s, rest) := by
  intro s
  induction s with
  | nil =>
    intro rest
    simpa [escapeChars] using parseStringBody_quote rest
  | cons c t ih =>
    intro rest
    have hesc : escapeChars (c :: t) = escapeChar c ++ escapeChars t :=
      List.flatMap_cons c t escapeChar
    rw [hesc, List.append_assoc]
    by_cases h1 : c = '"'
    · subst h1
      have he : escapeChar '"' = ['\\', '"'] := by decide
      rw [he]
      rw [parseStringBody.eq_def]
      simp [ih rest, consFst]
    by_cases h2 : c = '\\'
    · subst h2
      have he : escapeChar '\\' = ['\\', '\\'] := by decide
      rw [he]
      rw [parseStringBody.eq_def]
      simp [ih rest, consFst]
    by_cases h3 : c = Char.ofNat 8
    · subst h3
      have he : escapeChar (Char.ofNat 8) = ['\\', 'b'] := by decide
      rw [he]
      rw [parseStringBody.eq_def]
      simp [ih rest, consFst]
    by_cases h4 : c = Char.ofNat 9
    · subst h4
      have he : escapeChar (Char.ofNat 9) = ['\\', 't'] := by decide
      rw [he]
      rw [parseStringBody.eq_def]
      simp [ih rest, consFst]
    by_cases h5 : c = Char.ofNat 10
    · subst h5
      have he : escapeChar (Char.ofNat 10) = ['\\', 'n'] := by decide
      rw [he]
      rw [parseStringBody.eq_def]
      simp [ih rest, consFst]
    by_cases h6 : c = Char.ofNat 12
    · subst h6
      have he : escapeChar (Char.ofNat 12) = ['\\', 'f'] := by decide
      rw [he]
      rw [parseStringBody.eq_def]
      simp [ih rest, consFst]
    by_cases h7 : c = Char.ofNat 13
    · subst h7
      have he : escapeChar (Char.ofNat 13) = ['\\', 'r'] := by decide
      rw [he]
      rw [parseStringBody.eq_def]
      simp [ih rest, consFst]
    by_cases h8 : c.toNat < 32
    · have he : escapeChar c
          = ['\\', 'u', '0', '0', hexDigit (c.toNat / 16), hexDigit (c.toNat % 16)] := by
        simp [escapeChar, h1, h2, h3, h4, h5, h6, h7, h8]
      rw [he]
      rw [parseStringBody.eq_def]
      have hhi : hexVal (hexDigit (c.toNat / 16)) = some (c.toNat / 16) :=
        hexVal_hexDigit _ (by omega)
      have hlo : hexVal (hexDigit (c.toNat % 16)) = some (c.toNat % 16) :=
        hexVal_hexDigit _ (by omega)
      have h0 : hexVal '0' = some 0 := by decide
      simp only [List.cons_append, List.nil_append]
      simp [h0, hhi, hlo, ih rest, consFst]
      have harith : c.toNat / 16 * 16 + c.toNat % 16 = c.toNat := by
        omega
      rw [harith, charOfNat_toNat c (by omega)]
    · have he : escapeChar c = [c] := by
        simp [escapeChar, h1, h2, h3, h4, h5, h6, h7, h8]
      rw [he]
      simp only [List.cons_append, List.nil_append]
      rw [parseStringBody_raw c _ h1 h2 h8]
      simp [ih rest, consFst]

theorem stringMk_data (s : String) : String.mk s.data = s := by
  cases s
  rfl

theorem skipWs_cons (c : Char) (cs : List Char) (h : isWs c = false) :
    skipWs (c :: cs) = c :: cs := by
  simp [skipWs, h]

theorem isDigit_not_ws {c : Char} (h : isDigit c = true) : isWs c = false := by
  simp only [isDigit, Bool.and_eq_true, decide_eq_true_eq] at h
  simp only [isWs, Bool.or_eq_false_iff, decide_eq_false_iff_not]
  refine ⟨⟨⟨?_, ?_⟩, ?_⟩, ?_⟩ <;> (intro he; subst he; revert h; decide)

theorem isDigit_ne {c : Char} (h : isDigit c = true) :
    c ≠ '"' ∧ c ≠ '{' ∧ c ≠ '[' ∧ c ≠ 't' ∧ c ≠ 'f' ∧ c ≠ 'n' := by
  refine ⟨?_, ?_, ?_, ?_, ?_, ?_⟩ <;>
    (intro he; subst he; exact absurd h (by decide))

theorem encodeField_head (p : String × JVal) :
    encodeField p = '"' :: ((escapeChars p.1.data ++ ['"']) ++ (':' :: encodeJVal p.2)) := by
  simp [encodeField, encodeString]

/-- Parsing a serialized primitive value: the value branch of the
recursive-descent parser inverts `encodeJVal` (with any fuel left for
one step, and a remainder that cannot extend a numeral). -/
theorem parseJsValue_encodeJVal (v : JVal) (f : Nat) (rest : List Char)
    (hr : numBoundary rest = true) :
    parseJsValue (f + 1) (encodeJVal v ++ rest) = some (jvalToJs v, rest) := by
  cases v with
  | str s =>
    have harg : encodeJVal (JVal.str s) ++ rest
        = '"' :: (escapeChars s.data ++ '"' :: rest) := by
      simp [encodeJVal, encodeString]
    rw [harg]
    have hsw : skipWs ('"' :: (escapeChars s.data ++ '"' :: rest))
        = '"' :: (escapeChars s.data ++ '"' :: rest) := skipWs_cons _ _ (by decide)
    simp only [parseJsValue, hsw]
    simp [parseStringBody_escape s.data rest, stringMk_data, jvalToJs]
  | num i =>
    obtain ⟨d, ds, hnd, hdig, _⟩ := natDigits_cons i.natAbs
    by_cases hneg : i < 0
    · have harg : encodeJVal (JVal.num i) ++ rest = '-' :: (natDigits i.natAbs ++ rest) := by
        simp [encodeJVal, encodeInt, if_pos hneg]
      rw [harg]
      have hsw : skipWs ('-' :: (natDigits i.natAbs ++ rest))
          = '-' :: (natDigits i.natAbs ++ rest) := skipWs_cons _ _ (by decide)
      have hpn : parseNumber ('-' :: (natDigits i.natAbs ++ rest))
          = some (⟨i, 0⟩, rest) := by
        have hq := parseNumber_encodeInt i rest hr
        rw [encodeInt, if_pos hneg] at hq
        simpa using hq
      simp only [parseJsValue, hsw]
      simp [hpn, jvalToJs]
    · have harg : encodeJVal (JVal.num i) ++ rest = d :: (ds ++ rest) := by
        simp [encodeJVal, encodeInt, if_neg hneg, hnd]
      rw [harg]
      have hsw : skipWs (d :: (ds ++ rest)) = d :: (ds ++ rest) :=
        skipWs_cons _ _ (isDigit_not_ws hdig)
      obtain ⟨q1, q2, q3, q4, q5, q6⟩ := isDigit_ne hdig
      have hpn : parseNumber (d :: (ds ++ rest)) = some (⟨i, 0⟩, rest) := by
        have hq := parseNumber_encodeInt i rest hr
        rw [encodeInt, if_neg hneg, hnd] at hq
        simpa using hq
      simp only [parseJsValue, hsw]
      simp [q1, q2, q3, q4, q5, q6, hpn, jvalToJs]

theorem headNotDigit_cons (c : Char) (t : List Char) (h : isDigit c = false) :
    headNotDigit (c :: t) = true := by
  simp [headNotDigit, h]

theorem encodeField_append (p : String × JVal) (x : List Char) :
    encodeField p ++ x
      = '"' :: (escapeChars p.1.data ++ '"' :: (':' :: (encodeJVal p.2 ++ x))) := by
  simp [encodeField, encodeString]

theorem parseMembers_succ (f : Nat) (cs : List Char) :
    parseMembers (f + 1) cs
      = match skipWs cs with
        | [] => none
        | c :: rest =>
          if c = '"' then
            match parseStringBody rest with
            | none => none
            | some (k, r1) =>
              match skipWs r1 with
              | [] => none
              | d :: r2 =>
                if d = ':' then
                  match parseJsValue f r2 with
                  | none => none
                  | some (v, r3) =>
                    match skipWs r3 with
                    | [] => none
                    | s :: r4 =>
                      if s = ',' then
                        (fun p => ((String.mk k, v) :: p.1, p.2)) <$> parseMembers f r4
                      else if s = '}' then some ([(String.mk k, v)], r4)
                      else none
                else none
          else none := by
  rw [parseMembers.eq_def]

/-- Parsing a serialized nonempty member list: `parseMembers` inverts
`encodeFields` up to the closing brace, given fuel at least one step per
member plus one for the final value. -/
theorem parseMembers_encodeFields : ∀ (e : Event) (f : Nat) (rest : List Char),
    e ≠ [] → e.length + 1 ≤ f →
    parseMembers f (encodeFields e ++ '}' :: rest)
      = some (e.map (fun p => (p.1, jvalToJs p.2)), rest) := by
  intro e
  induction e with
  | nil =>
    intro f rest h _
    exact absurd rfl h
  | cons p t ih =>
    intro f rest _ hf
    obtain ⟨f1, rfl⟩ : ∃ f1, f = f1 + 1 := ⟨f - 1, by omega⟩
    cases t with
    | nil =>
      obtain ⟨f2, rfl⟩ : ∃ f2, f1 = f2 + 1 := ⟨f1 - 1, by simp at hf; omega⟩
      have harg : encodeFields [p] ++ '}' :: rest
          = '"' :: (escapeChars p.1.data ++ '"' :: (':' :: (encodeJVal p.2 ++ '}' :: rest))) := by
        rw [show encodeFields [p] = encodeField p from rfl]
        exact encodeField_append p _
      rw [harg, parseMembers_succ]
      rw [skipWs_cons _ _ (by decide)]
      have hps := parseStringBody_escape p.1.data (':' :: (encodeJVal p.2 ++ '}' :: rest))
      have hsw2 : skipWs (':' :: (encodeJVal p.2 ++ '}' :: rest))
          = ':' :: (encodeJVal p.2 ++ '}' :: rest) := skipWs_cons _ _ (by decide)
      have hpv := parseJsValue_encodeJVal p.2 f2 ('}' :: rest)
        (numBoundary_cons_of _ _ (by decide) (by decide) (by decide) (by decide))
      have hsw3 : skipWs ('}' :: rest) = '}' :: rest := skipWs_cons _ _ (by decide)
      simp [hps, hsw2, hpv, hsw3, stringMk_data]
    | cons q ts =>
      have hlen : (q :: ts).length + 1 ≤ f1 := by
        simp at hf ⊢
        omega
      have harg : encodeFields (p :: q :: ts) ++ '}' :: rest
          = '"' :: (escapeChars p.1.data ++ '"' ::
              (':' :: (encodeJVal p.2 ++ ',' :: (encodeFields (q :: ts) ++ '}' :: rest)))) := by
        rw [show encodeFields (p :: q :: ts)
            = encodeField p ++ ',' :: encodeFields (q :: ts) from rfl]
        rw [List.append_assoc, List.cons_append]
        exact encodeField_append p _
      rw [harg, parseMembers_succ]
      rw [skipWs_cons _ _ (by decide)]
      obtain ⟨f2, rfl⟩ : ∃ f2, f1 = f2 + 1 := ⟨f1 - 1, by omega⟩
      have hps := parseStringBody_escape p.1.data
        (':' :: (encodeJVal p.2 ++ ',' :: (encodeFields (q :: ts) ++ '}' :: rest)))
      have hsw2 : skipWs (':' :: (encodeJVal p.2 ++ ',' :: (encodeFields (q :: ts) ++ '}' :: rest)))
          = ':' :: (encodeJVal p.2 ++ ',' :: (encodeFields (q :: ts) ++ '}' :: rest)) :=
        skipWs_cons _ _ (by decide)
      have hpv := parseJsValue_encodeJVal p.2 f2
        (',' :: (encodeFields (q :: ts) ++ '}' :: rest))
        (numBoundary_cons_of _ _ (by decide) (by decide) (by decide) (by decide))
      have hsw3 : skipWs (',' :: (encodeFields (q :: ts) ++ '}' :: rest))
          = ',' :: (encodeFields (q :: ts) ++ '}' :: rest) := skipWs_cons _ _ (by decide)
      have hrec := ih (f2 + 1) rest (by simp) hlen
      simp [hps, hsw2, hpv, hsw3, hrec, stringMk_data]

theorem parseJsValue_succ (f : Nat) (cs : List Char) :
    parseJsValue (f + 1) cs
      = match skipWs cs with
        | [] => none
        | c :: rest =>
          if c = '"' then
            (fun p => (JsValue.str (String.mk p.1), p.2)) <$> parseStringBody rest
          else if c = '{' then
            match skipWs rest with
            | [] => none
            | d :: r2 =>
              if d = '}' then some (JsValue.obj [], r2)
              else (fun p => (JsValue.obj p.1, p.2)) <$> parseMembers f (d :: r2)
          else if c = '[' then
            match skipWs rest with
            | [] => none
            | d :: r2 =>
              if d = ']' then some (JsValue.arr [], r2)
              else (fun p => (JsValue.arr p.1, p.2)) <$> parseElems f (d :: r2)
          else if c = 't' then
            match rest with
            | 'r' :: 'u' :: 'e' :: r2 => some (JsValue.bool true, r2)
            | _ => none
          else if c = 'f' then
            match rest with
            | 'a' :: 'l' :: 's' :: 'e' :: r2 => some (JsValue.bool false, r2)
            | _ => none
          else if c = 'n' then
            match rest with
            | 'u' :: 'l' :: 'l' :: r2 => some (JsValue.null, r2)
            | _ => none
          else (fun p => (JsValue.num p.1, p.2)) <$> parseNumber (c :: rest) := by
  rw [parseJsValue.eq_def]

theorem encodeFields_cons_head (p : String × JVal) (t : Event) (x : List Char) :
    ∃ tail, encodeFields (p :: t) ++ x = '"' :: tail := by
  cases t with
  | nil =>
    refine ⟨escapeChars p.1.data ++ '"' :: (':' :: (encodeJVal p.2 ++ x)), ?_⟩
    rw [show encodeFields [p] = encodeField p from rfl]
    exact encodeField_append p x
  | cons q ts =>
    refine ⟨escapeChars p.1.data ++ '"' ::
      (':' :: (encodeJVal p.2 ++ (',' :: (encodeFields (q :: ts) ++ x)))), ?_⟩
    rw [show encodeFields (p :: q :: ts)
        = encodeField p ++ ',' :: encodeFields (q :: ts) from rfl]
    rw [List.append_assoc, List.cons_append]
    exact encodeField_append p _

/-- Parsing a whole serialized event: the parser returns the object value
whose members are the event's fields. -/
theorem parseJsValue_encode (e : Event) (f : Nat) (rest : List Char)
    (hf : e.length + 2 ≤ f) :
    parseJsValue f (encode e ++ rest) = some (eventToJs e, rest) := by
  obtain ⟨f1, rfl⟩ : ∃ f1, f = f1 + 1 := ⟨f - 1, by omega⟩
  have harg : encode e ++ rest = '{' :: (encodeFields e ++ '}' :: rest) := by
    simp [encode]
  rw [harg, parseJsValue_succ]
  rw [skipWs_cons _ _ (by decide)]
  cases e with
  | nil =>
    have h0 : encodeFields ([] : Event) = [] := rfl
    have hsw : skipWs ('}' :: rest) = '}' :: rest := skipWs_cons _ _ (by decide)
    rw [h0]
    simp [hsw, eventToJs]
  | cons p t =>
    obtain ⟨tail, htail⟩ := encodeFields_cons_head p t ('}' :: rest)
    have hsw : skipWs ('"' :: tail) = '"' :: tail := skipWs_cons _ _ (by decide)
    have hpm : parseMembers f1 ('"' :: tail)
        = some ((p :: t).map (fun x => (x.1, jvalToJs x.2)), rest) := by
      rw [← htail]
      exact parseMembers_encodeFields (p :: t) f1 rest (by simp) (by simp at hf ⊢; omega)
    rw [htail]
    simp [hsw, hpm, eventToJs]

theorem encodeFields_length (e : Event) : e.length ≤ (encodeFields e).length := by
  induction e with
  | nil => simp [encodeFields]
  | cons p t ih =>
    cases t with
    | nil =>
      rw [show encodeFields [p] = encodeField p from rfl, encodeField_head p]
      simp
    | cons q ts =>
      rw [show encodeFields (p :: q :: ts)
          = encodeField p ++ ',' :: encodeFields (q :: ts) from rfl]
      rw [encodeField_head p]
      simp only [List.length_cons, List.length_append]
      simp at ih ⊢
      omega

/-- The parse side of the round-trip at the `JsValue` level:
`JSON.parse` applied to `JSON.stringify(event)` yields exactly the
object value with the event's fields, in order. -/
theorem jsParse_stringify (e : Event) : jsParse (jsonStringify e) = some (eventToJs e) := by
  unfold jsParse jsonStringify
  have hdata : (String.mk (encode e)).data = encode e := rfl
  rw [hdata]
  have hfuel : e.length + 2 ≤ 2 * (encode e).length + 2 := by
    have h1 := encodeFields_length e
    have h2 : (encode e).length = (encodeFields e).length + 2 := by simp [encode]
    omega
  have hp := parseJsValue_encode e (2 * (encode e).length + 2) [] hfuel
  rw [List.append_nil] at hp
  rw [hp]
  simp [skipWs]

theorem jsToJVal_jvalToJs (v : JVal) : jsToJVal (jvalToJs v) = some v := by
  cases v <;> rfl

theorem eventOfJs_eventToJs (e : Event) : eventOfJs (eventToJs e) = some e := by
  induction e with
  | nil => rfl
  | cons p t ih =>
    have ih2 : List.mapM (fun q => Option.map (fun v => (q.1, v)) (jsToJVal q.2))
        (List.map (fun q => (q.1, jvalToJs q.2)) t) = some t := by
      simpa [eventToJs, eventOfJs] using ih
    have h1 : eventToJs (p :: t)
        = JsValue.obj ((p.1, jvalToJs p.2) :: List.map (fun q => (q.1, jvalToJs q.2)) t) := by
      simp [eventToJs]
    rw [h1]
    have h2 : eventOfJs (JsValue.obj ((p.1, jvalToJs p.2)
          :: List.map (fun q => (q.1, jvalToJs q.2)) t))
        = List.mapM (fun q => Option.map (fun v => (q.1, v)) (jsToJVal q.2))
            ((p.1, jvalToJs p.2) :: List.map (fun q => (q.1, jvalToJs q.2)) t) := rfl
    have ih3 : List.mapM.loop (fun q => Option.map (fun v => (q.1, v)) (jsToJVal q.2))
        (List.map (fun q => (q.1, jvalToJs q.2)) t) [] = some t := ih2
    rw [h2, List.mapM_cons]
    simp [jsToJVal_jvalToJs, ih3]

theorem decodeEvent_stringify (e : Event) : decodeEvent (jsonStringify e) = some e := by
  simp [decodeEvent, jsParse_stringify, eventOfJs_eventToJs]

theorem digitChar_ge (d : Nat) (h : d < 10) : 32 ≤ (digitChar d).toNat := by
  have := toNat_charOfNat (48 + d) (by omega)
  unfold digitChar
  omega

theorem hexDigit_ge (d : Nat) (h : d < 16) : 32 ≤ (hexDigit d).toNat := by
  unfold hexDigit
  by_cases h10 : d < 10
  · rw [if_pos h10]
    have := toNat_charOfNat (48 + d) (by omega)
    omega
  · rw [if_neg h10]
    have := toNat_charOfNat (87 + d) (by omega)
    omega

theorem isDigit_ge {c : Char} (h : isDigit c = true) : 32 ≤ c.toNat := by
  simp only [isDigit, Bool.and_eq_true, decide_eq_true_eq] at h
  omega

/-- Every character `escapeChar` emits is printable (code at least 32):
escaping never lets a raw control character, in particular a newline,
through into the serialized form. -/
theorem escapeChar_ge (c : Char) : ∀ d ∈ escapeChar c, 32 ≤ d.toNat := by
  intro d hd
  unfold escapeChar at hd
  split_ifs at hd with h1 h2 h3 h4 h5 h6 h7 h8
  · rcases List.mem_pair.mp hd with h | h <;> (subst h; decide)
  · rcases List.mem_pair.mp hd with h | h <;> (subst h; decide)
  · rcases List.mem_pair.mp hd with h | h <;> (subst h; decide)
  · rcases List.mem_pair.mp hd with h | h <;> (subst h; decide)
  · rcases List.mem_pair.mp hd with h | h <;> (subst h; decide)
  · rcases List.mem_pair.mp hd with h | h <;> (subst h; decide)
  · rcases List.mem_pair.mp hd with h | h <;> (subst h; decide)
  · simp only [List.mem_cons, List.not_mem_nil, or_false] at hd
    rcases hd with h | h | h | h | h | h
    · subst h; decide
    · subst h; decide
    · subst h; decide
    · subst h; decide
    · subst h; exact hexDigit_ge _ (by omega)
    · subst h; exact hexDigit_ge _ (by omega)
  · simp only [List.mem_singleton] at hd
    subst hd
    omega

theorem natDigits_ge (n : Nat) : ∀ c ∈ natDigits n, 32 ≤ c.toNat :=
  fun c hc => isDigit_ge (natDigits_all_digits n c hc)

theorem encodeInt_ge (i : Int) : ∀ c ∈ encodeInt i, 32 ≤ c.toNat := by
  intro c hc
  unfold encodeInt at hc
  split_ifs at hc
  · rcases List.mem_cons.mp hc with h | h
    · subst h; decide
    · exact natDigits_ge _ c h
  · exact natDigits_ge _ c hc

theorem encodeString_ge (s : String) : ∀ c ∈ encodeString s, 32 ≤ c.toNat := by
  intro c hc
  unfold encodeString at hc
  rcases List.mem_cons.mp hc with h | h
  · subst h; decide
  · rcases List.mem_append.mp h with h | h
    · obtain ⟨a, _, ha⟩ := List.mem_flatMap.mp h
      exact escapeChar_ge a c ha
    · simp only [List.mem_singleton] at h
      subst h; decide

theorem encodeJVal_ge (v : JVal) : ∀ c ∈ encodeJVal v, 32 ≤ c.toNat := by
  cases v with
  | str s => exact encodeString_ge s
  | num i => exact encodeInt_ge i

theorem encodeField_ge (p : String × JVal) : ∀ c ∈ encodeField p, 32 ≤ c.toNat := by
  intro c hc
  unfold encodeField at hc
  rcases List.mem_append.mp hc with h | h
  · exact encodeString_ge _ c h
  · rcases List.mem_cons.mp h with h | h
    · subst h; decide
    · exact encodeJVal_ge _ c h

theorem encodeFields_ge (e : Event) : ∀ c ∈ encodeFields e, 32 ≤ c.toNat := by
  induction e with
  | nil => simp [encodeFields]
  | cons p t ih =>
    intro c hc
    cases t with
    | nil => exact encodeField_ge p c hc
    | cons q ts =>
      rw [show encodeFields (p :: q :: ts)
          = encodeField p ++ ',' :: encodeFields (q :: ts) from rfl] at hc
      rcases List.mem_append.mp hc with h | h
      · exact encodeField_ge p c h
      · rcases List.mem_cons.mp h with h | h
        · subst h; decide
        · exact ih c h

/-- Every character of a serialized event is printable; in particular the
serialized event contains no raw newline. -/
theorem encode_ge (e : Event) : ∀ c ∈ encode e, 32 ≤ c.toNat := by
  intro c hc
  unfold encode at hc
  rcases List.mem_cons.mp hc with h | h
  · subst h; decide
  · rcases List.mem_append.mp h with h | h
    · exact encodeFields_ge e c h
    · simp only [List.mem_singleton] at h
      subst h; decide

theorem stringify_no_newline (e : Event) : Char.ofNat 10 ∉ (jsonStringify e).data := by
  intro hmem
  have := encode_ge e _ hmem
  revert this
  decide

theorem logEntry_data (now : String) (event : Event) :
    (logEntry now event).data
      = now.data ++ " - Event: ".data ++ (jsonStringify event).data ++ [Char.ofNat 10] := by
  simp [logEntry, String.data_append]

/-- A log record contains exactly one newline, at its end, whenever the
timestamp contains none (ISO-8601 timestamps never do). -/
theorem logEntry_one_newline (now : String) (event : Event)
    (h : Char.ofNat 10 ∉ now.data) :
    (logEntry now event).data.count (Char.ofNat 10) = 1
    ∧ (logEntry now event).data.getLast? = some (Char.ofNat 10) := by
  constructor
  · rw [logEntry_data]
    simp only [List.count_append]
    rw [List.count_eq_zero.mpr h]
    rw [List.count_eq_zero.mpr (stringify_no_newline event)]
    rfl
  · rw [logEntry_data, List.getLast?_concat]

/-- `appendEvents` only ever appends: the new file is the old contents
followed by the concatenation of the new records, in delivery order. -/
theorem appendEvents_data (entries : List (String × Event)) : ∀ file : String,
    (appendEvents file entries).data
      = file.data ++ entries.flatMap (fun p => (logEntry p.1 p.2).data) := by
  induction entries with
  | nil =>
    intro file
    simp [appendEvents]
  | cons p t ih =>
    intro file
    have h1 : appendEvents file (p :: t)
        = appendEvents (file ++ logEntry p.1 p.2) t := by
      simp [appendEvents, logEventToFile]
    rw [h1, ih]
    simp [String.data_append]

theorem flatMap_count_newlines (entries : List (String × Event))
    (h : ∀ p ∈ entries, Char.ofNat 10 ∉ p.1.data) :
    (entries.flatMap (fun p => (logEntry p.1 p.2).data)).count (Char.ofNat 10)
      = entries.length := by
  induction entries with
  | nil => rfl
  | cons p t ih =>
    simp only [List.flatMap_cons, List.count_append]
    rw [(logEntry_one_newline p.1 p.2 (h p (by simp))).1]
    rw [ih (fun q hq => h q (by simp [hq]))]
    rw [List.length_cons]
    omega

/-- Claim C1: the code at the failing input. With the broker channel never
established (`channel` is `undefined`) and a successful INSERT, the
`/register` query callback does not report success: `publishEvent` is
called before `res.json`, `channel.assertExchange` throws a `TypeError`
on the undefined channel, and the exception escapes the callback, so no
response is sent and nothing is logged. The spec requires the request to
still report its primary mutation as successful, with the publish
failure observable only via logging. -/
theorem claim_C1_register_behavior (insertId : Int) (username email : String) :
    registerQueryCallback none (QueryOutcome.ok insertId) username email
      = Except.error JsError.typeError := rfl

/-- Claim C2: for every event (a flat record of string/number fields,
`eventType` included), decoding the encoded form yields the event
field-for-field: `JSON.parse` applied to the `JSON.stringify` output of
`publishEvent` returns exactly the object with the original fields, and
reading that object back as an event returns the original event. -/
theorem claim_C2_decode_encode (e : Event) :
    decodeEvent (jsonStringify e) = some e
    ∧ jsParse (jsonStringify e) = some (eventToJs e) :=
  ⟨decodeEvent_stringify e, jsParse_stringify e⟩

/-- Claim C3: the subscriber's startup performs, in this order: acquire a
channel, assert the exchange, assert a queue with no explicit name that
is exclusive to this connection, bind that queue to the exchange with an
empty routing key, and consume with `noAck: true` (no manual
acknowledgment). -/
theorem claim_C3_subscriber_protocol (q : String) :
    subscribeToEvents q
      = [ BrokerStep.acquireChannel,
          BrokerStep.assertExchange "events" "fanout" false,
          BrokerStep.assertQueue "" true,
          BrokerStep.bindQueue q "events" "",
          BrokerStep.consume q true ] := rfl

/-- Claim C4: each successfully consumed delivery appends exactly one new
record to the file at the fixed relative path `events.log`; the record is
a single newline-terminated line made of the ISO timestamp, the literal
separator `" - Event: "` and the encoded event; prior content is never
modified or removed: after the K deliveries in `entries` the log is the
old bytes followed by exactly K newline-terminated records. (The
hypothesis — no raw newline in the timestamps — holds for every ISO-8601
timestamp `new Date().toISOString()` can produce.) -/
theorem claim_C4_append_only (file : String) (entries : List (String × Event))
    (hts : ∀ p ∈ entries, Char.ofNat 10 ∉ p.1.data) :
    logFilePath = "events.log"
    ∧ (appendEvents file entries).data
        = file.data ++ entries.flatMap (fun p => (logEntry p.1 p.2).data)
    ∧ (entries.flatMap (fun p => (logEntry p.1 p.2).data)).count (Char.ofNat 10)
        = entries.length
    ∧ (∀ p ∈ entries, (logEntry p.1 p.2).data.getLast? = some (Char.ofNat 10))
    ∧ (∀ p ∈ entries,
        logEntry p.1 p.2 = p.1 ++ " - Event: " ++ jsonStringify p.2 ++ "\n") := by
  refine ⟨rfl, appendEvents_data entries file, flatMap_count_newlines entries hts, ?_, ?_⟩
  · intro p hp
    exact (logEntry_one_newline p.1 p.2 (hts p hp)).2
  · intro p hp
    rfl

/-- Claim C4 witness: two concrete deliveries appended to a concrete
prior log. -/
theorem claim_C4_append_only_witness :
    (∀ p ∈ ([("2026-01-01T00:00:00.000Z", [("userId", JVal.num 7)])]
        : List (String × Event)), Char.ofNat 10 ∉ p.1.data)
    ∧ (logFilePath = "events.log"
       ∧ (appendEvents "prior\n"
            ([("2026-01-01T00:00:00.000Z", [("userId", JVal.num 7)])]
              : List (String × Event))).data
           = "prior\n".data
             ++ ([("2026-01-01T00:00:00.000Z", [("userId", JVal.num 7)])]
                  : List (String × Event)).flatMap (fun p => (logEntry p.1 p.2).data)
       ∧ (([("2026-01-01T00:00:00.000Z", [("userId", JVal.num 7)])]
            : List (String × Event)).flatMap
              (fun p => (logEntry p.1 p.2).data)).count (Char.ofNat 10)
           = ([("2026-01-01T00:00:00.000Z", [("userId", JVal.num 7)])]
               : List (String × Event)).length
       ∧ (∀ p ∈ ([("2026-01-01T00:00:00.000Z", [("userId", JVal.num 7)])]
            : List (String × Event)),
           (logEntry p.1 p.2).data.getLast? = some (Char.ofNat 10))
       ∧ (∀ p ∈ ([("2026-01-01T00:00:00.000Z", [("userId", JVal.num 7)])]
            : List (String × Event)),
           logEntry p.1 p.2 = p.1 ++ " - Event: " ++ jsonStringify p.2 ++ "\n")) :=
  ⟨by decide,
   claim_C4_append_only "prior\n"
     ([("2026-01-01T00:00:00.000Z", [("userId", JVal.num 7)])] : List (String × Event))
     (by decide)⟩

/-- Claim C5 counterexample: with a healthy channel already present
(channel identity 0), a further `createChannel()` call does not reuse
it — it attempts one new connection and overwrites the binding with a
different, freshly created channel. -/
theorem claim_C5_counterexample :
    (createChannel ⟨some 0, 1⟩ ConnectResult.success).state.channel ≠ some 0
    ∧ (createChannel ⟨some 0, 1⟩ ConnectResult.success).connectAttempts = 1 := by
  constructor
  · decide
  · rfl

/-- Claim C5 as amended: `createChannel` is not idempotent. Every call
attempts exactly one new `amqp.connect`, and on success it overwrites the
`channel` binding with the freshly created channel — in particular it
never reuses a previously held channel. -/
theorem claim_C5_amended (st : ConnState) (r : ConnectResult) :
    (createChannel st r).connectAttempts = 1
    ∧ (r = ConnectResult.success →
        (createChannel st r).state.channel = some st.nextChannelId)
    ∧ (∀ c, st.channel = some c → c < st.nextChannelId → r = ConnectResult.success →
        (createChannel st r).state.channel ≠ some c) := by
  refine ⟨?_, ?_, ?_⟩
  · cases r <;> rfl
  · intro hr
    subst hr
    rfl
  · intro c hc hlt hr
    subst hr
    simp [createChannel]
    omega

/-- Claim C5 amended witness: the concrete healthy-channel state. -/
theorem claim_C5_amended_witness :
    (createChannel ⟨some 0, 1⟩ ConnectResult.success).connectAttempts = 1
    ∧ (createChannel ⟨some 0, 1⟩ ConnectResult.success).state.channel = some 1
    ∧ (createChannel ⟨some 0, 1⟩ ConnectResult.success).state.channel ≠ some 0 :=
  ⟨(claim_C5_amended ⟨some 0, 1⟩ ConnectResult.success).1,
   (claim_C5_amended ⟨some 0, 1⟩ ConnectResult.success).2.1 rfl,
   (claim_C5_amended ⟨some 0, 1⟩ ConnectResult.success).2.2 0 rfl (by decide) rfl⟩

/-- Claim C6 counterexample: a failed append (`ENOSPC`) leaves the file
unchanged — the write did not complete — and yet the caller of
`logEventToFile` receives no failure indication: the error is only
written to the console by the `fs.appendFile` callback. -/
theorem claim_C6_counterexample :
    (logEventToFile "2026-01-01T00:00:00.000Z" "prior" []
        (WriteResult.fail "ENOSPC")).file = "prior"
    ∧ (logEventToFile "2026-01-01T00:00:00.000Z" "prior" []
        (WriteResult.fail "ENOSPC")).callerError = none
    ∧ (logEventToFile "2026-01-01T00:00:00.000Z" "prior" []
        (WriteResult.fail "ENOSPC")).console
        = ["Error writing to log file: " ++ "ENOSPC"] :=
  ⟨rfl, rfl, rfl⟩

/-- Claim C6 as amended: each `logEventToFile` call either completes the
write of its one record or only logs the failure to the console; in
neither case is anything reported to the caller — the append is
fire-and-forget, and a failed append is suppressed from the caller's
point of view. -/
theorem claim_C6_amended (now file : String) (event : Event) (w : WriteResult) :
    (logEventToFile now file event w).callerError = none
    ∧ (w = WriteResult.ok →
        (logEventToFile now file event w).file = file ++ logEntry now event
        ∧ (logEventToFile now file event w).console = ["Event logged successfully"])
    ∧ (∀ msg, w = WriteResult.fail msg →
        (logEventToFile now file event w).file = file
        ∧ (logEventToFile now file event w).console
            = ["Error writing to log file: " ++ msg]) := by
  refine ⟨?_, ?_, ?_⟩
  · cases w <;> rfl
  · intro hw
    subst hw
    exact ⟨rfl, rfl⟩
  · intro msg hw
    subst hw
    exact ⟨rfl, rfl⟩

/-- Claim C6 amended witness: one successful concrete append. -/
theorem claim_C6_amended_witness :
    (logEventToFile "t0" "f0" [] WriteResult.ok).callerError = none
    ∧ ((logEventToFile "t0" "f0" [] WriteResult.ok).file = "f0" ++ logEntry "t0" []
       ∧ (logEventToFile "t0" "f0" [] WriteResult.ok).console
           = ["Event logged successfully"]) :=
  ⟨(claim_C6_amended "t0" "f0" [] WriteResult.ok).1,
   (claim_C6_amended "t0" "f0" [] WriteResult.ok).2.1 rfl⟩

/-- Claim C7: if the initial broker connection attempt fails,
`createChannel` logs `"Error connecting to RabbitMQ: "` with the error,
leaves the `channel` binding unset, attempts exactly one connection (no
retry or reconnection), and lets no exception escape (the `catch`
swallows the failure, so the process does not crash). -/
theorem claim_C7_connect_failure (st : ConnState) (msg : String)
    (h : st.channel = none) :
    (createChannel st (ConnectResult.failure msg)).state.channel = none
    ∧ (createChannel st (ConnectResult.failure msg)).consoleErrors
        = ["Error connecting to RabbitMQ: " ++ msg]
    ∧ (createChannel st (ConnectResult.failure msg)).connectAttempts = 1
    ∧ (createChannel st (ConnectResult.failure msg)).uncaught = none := by
  refine ⟨?_, rfl, rfl, rfl⟩
  simpa [createChannel] using h

/-- Claim C7 witness: the process-start state (no channel yet) and a
concrete connection error. -/
theorem claim_C7_connect_failure_witness :
    ((⟨none, 0⟩ : ConnState).channel = none)
    ∧ ((createChannel ⟨none, 0⟩ (ConnectResult.failure "ECONNREFUSED")).state.channel = none
       ∧ (createChannel ⟨none, 0⟩ (ConnectResult.failure "ECONNREFUSED")).consoleErrors
           = ["Error connecting to RabbitMQ: " ++ "ECONNREFUSED"]
       ∧ (createChannel ⟨none, 0⟩ (ConnectResult.failure "ECONNREFUSED")).connectAttempts = 1
       ∧ (createChannel ⟨none, 0⟩ (ConnectResult.failure "ECONNREFUSED")).uncaught = none) :=
  ⟨rfl, claim_C7_connect_failure ⟨none, 0⟩ "ECONNREFUSED" rfl⟩

/-- Claim C8: the publisher's and the subscriber's exchange declarations
are identical — same fixed name `"events"` (the module constant
`exchange`), same type `"fanout"`, same `durable: false` — and neither
depends on the event being published or on the queue name, i.e. neither
is configurable. -/
theorem claim_C8_matching_declarations (ev : Event) (q : String) :
    (publishEvent ev)[0]? = some (BrokerStep.assertExchange "events" "fanout" false)
    ∧ (subscribeToEvents q)[1]? = some (BrokerStep.assertExchange "events" "fanout" false)
    ∧ exchange = "events" :=
  ⟨rfl, rfl, rfl⟩

/-- Claim C9 counterexample: the body `"5"` is not a valid encoded Event
(no event decodes from it — indeed every serialized event starts with a
brace), yet the consume callback raises nothing: `JSON.parse` accepts it
and the value is handed to the logger. So "body is not a valid encoded
Event" does not imply an error from the decode step. -/
theorem claim_C9_counterexample :
    decodeEvent "5" = none
    ∧ consumeCallback ⟨some "5"⟩ = Except.ok (some (JsValue.num ⟨5, 0⟩)) := by
  constructor
  · rfl
  · rfl

/-- Claim C9 as amended: the decode step errors exactly on bodies that
are not valid JSON. For any delivered message whose body `JSON.parse`
rejects, the callback raises a `SyntaxError` that nothing in the
delivery loop catches; for any body `JSON.parse` accepts — valid encoded
Event or not — no error is raised and the parsed value is handed to the
logger as-is. -/
theorem claim_C9_amended (msg : Delivery) (body : String)
    (h1 : msg.content = some body) :
    (jsParse body = none → consumeCallback msg = Except.error JsError.syntaxError)
    ∧ (∀ v, jsParse body = some v → consumeCallback msg = Except.ok (some v)) := by
  constructor
  · intro h2
    simp [consumeCallback, h1, h2]
  · intro v h2
    simp [consumeCallback, h1, h2]

/-- Claim C9 amended witness: the malformed body consisting of a lone
opening brace, on which the callback does raise the uncaught error. -/
theorem claim_C9_amended_witness :
    (Delivery.mk (some "\x7b")).content = some "\x7b"
    ∧ jsParse "\x7b" = none
    ∧ ((jsParse "\x7b" = none →
         consumeCallback ⟨some "\x7b"⟩ = Except.error JsError.syntaxError)
       ∧ (∀ v, jsParse "\x7b" = some v →
           consumeCallback ⟨some "\x7b"⟩ = Except.ok (some v)))
    ∧ consumeCallback ⟨some "\x7b"⟩ = Except.error JsError.syntaxError :=
  ⟨rfl, rfl, claim_C9_amended ⟨some "\x7b"⟩ "\x7b" rfl,
   (claim_C9_amended ⟨some "\x7b"⟩ "\x7b" rfl).1 rfl⟩

/-- Claim C10: a delivery whose `msg.content` is absent (falsy) makes the
consume callback return normally without decoding anything and without
any log append, so it produces no log entry and raises nothing into the
delivery loop. -/
theorem claim_C10_empty_content (msg : Delivery) (h : msg.content = none) :
    consumeCallback msg = Except.ok none := by
  simp [consumeCallback, h]

/-- Claim C10 witness: the contentless delivery. -/
theorem claim_C10_empty_content_witness :
    (Delivery.mk none).content = none
    ∧ consumeCallback ⟨none⟩ = Except.ok none :=
  ⟨rfl, claim_C10_empty_content ⟨none⟩ rfl⟩
